import Mathlib

/-!
Shallow embedding of the real-time epoch extraction engine of
`src/mne_lsl/stream/epochs.py` (class `EpochsStream` together with the helper
functions `_prune_events`, `_find_events_in_stim_channels` and `_process_data`),
and theorems settling the specification's claims about it.

Conventions of the embedding:

* sample values are integers (`ℤ`, stim channels carry integer codes) and
  timestamps are rationals (`ℚ`);
* a 2-D numpy array of shape `(channels, times)` is a `List (List ℤ)` of
  channel rows; the events array of shape `(n, 3)` is a `List Event`;
* numpy operations that can raise (shape-mismatched assignment, `np.vstack` of
  rows of different lengths, fancy indexing out of range) are modelled in the
  `Except String` monad, because the `try/except` block of
  `EpochsStream._acquire` gives them observable control-flow meaning;
* floating point is modelled by exact rational arithmetic.
-/

namespace Epochs

/-- Multiplication of rationals, in executable form (`mkRat` normalizes). -/
def qmul (a b : ℚ) : ℚ :=
  mkRat (a.num * b.num) (a.den * b.den)

/-- Subtraction of rationals, in executable form. -/
def qsub (a b : ℚ) : ℚ :=
  mkRat (a.num * (b.den : ℤ) - b.num * (a.den : ℤ)) (a.den * b.den)

/-- Strict comparison of rationals by cross multiplication (denominators are
positive). -/
def qlt (a b : ℚ) : Bool :=
  a.num * (b.den : ℤ) < b.num * (a.den : ℤ)

/-- Floor of a rational number, computed by flooring integer division. -/
def ratFloor (q : ℚ) : ℤ :=
  Int.fdiv q.num q.den

/-- Ceiling of a rational number (Python's `math.ceil`). -/
def ratCeil (q : ℚ) : ℤ :=
  -(Int.fdiv (-q.num) (q.den : ℤ))

/-- Python's built-in `round` on a rational number: round half to even.
`r` is the numerator of the fractional part `q - floor q` over `q.den`. -/
def pyRound (q : ℚ) : ℤ :=
  let f : ℤ := ratFloor q
  let r : ℤ := q.num - f * (q.den : ℤ)
  if 2 * r < (q.den : ℤ) then f
  else if (q.den : ℤ) < 2 * r then f + 1
  else if f % 2 = 0 then f else f + 1

/-- Normalize a (possibly negative) python slice bound for a sequence of
length `n`: negative bounds count from the end and are clamped at `0`,
non-negative bounds are clamped at `n`. -/
def pyIdx (n : ℕ) (i : ℤ) : ℕ :=
  if i < 0 then ((n : ℤ) + i).toNat else min i.toNat n

/-- Python/numpy slice `l[start:stop]` with possibly negative bounds. -/
def pySlice (l : List ℤ) (start stop : ℤ) : List ℤ :=
  (l.take (pyIdx l.length stop)).drop (pyIdx l.length start)

/-- Number of elements of `ts` strictly below `v`: for a sorted `ts` this is
`np.searchsorted(ts, v, side='left')`. -/
def np_searchsorted_left (ts : List ℚ) (v : ℚ) : ℕ :=
  ts.countP (fun t => qlt t v)

/-- Index of the first maximal element of a list (`np.argmax`); `0` on `[]`. -/
def np_argmax (l : List ℤ) : ℕ :=
  (List.range l.length).foldl (fun b i => if l.getD b 0 < l.getD i 0 then i else b) 0

/-- One row of the `(n, 3)` events array:
`(sample_index, previous_value, event_code)`. -/
structure Event where
  idx : ℕ
  prev : ℤ
  code : ℤ
deriving DecidableEq

/-- One epoch slot of the buffer: `n_epoch_samples` rows of
`picks.length` values each — the `(samples, channels)` orientation produced by
the transposition in `_acquire`. -/
abbrev Epoch := List (List ℤ)

/-- Transpose channel rows into `n` sample rows (the `.T` applied to each
epoch slice in `_acquire`). -/
def transposeT (n : ℕ) (rows : List (List ℤ)) : List (List ℤ) :=
  (List.range n).map (fun j => rows.map (fun r => r.getD j 0))

/-- Which of the three event-sourcing branches of `_acquire` is configured:
events from stim channels of the connected stream (`event_stream is None`),
from a regularly sampled separate event stream, or from an irregularly
sampled separate event stream. -/
inductive EventSource
  | mainStim
  | sideRegular
  | sideIrregular
deriving DecidableEq

/-- The configuration frozen at construction time (`EpochsStream.__init__`),
reduced to the fields the acquisition path reads. `event_id` keeps the values
of the name-to-code mapping; `picks` are the channel indices kept in the
buffer (`self._picks`); `event_channel_picks` is `picks_events` of the
main-stream scenario. -/
structure Config where
  bufsize : ℕ
  tmin : ℚ
  tmax : ℚ
  sfreq : ℚ
  event_id : List ℤ
  picks : List ℕ
  event_channel_picks : List ℕ
  source : EventSource
deriving DecidableEq

/-- `ceil((tmax - tmin) * sfreq)`: the per-epoch sample count, i.e.
`self._buffer.shape[1]` allocated in `connect`. -/
def n_epoch_samples (cfg : Config) : ℕ :=
  (ratCeil (qmul (qsub cfg.tmax cfg.tmin) cfg.sfreq)).toNat

/-- `shift = round(self._tmin * self._info["sfreq"])`: the signed onset
shift applied before slicing each epoch. -/
def epoch_shift (cfg : Config) : ℤ :=
  pyRound (qmul cfg.tmin cfg.sfreq)

/-- An all-zero epoch slot, as allocated by `connect` via `np.zeros`. -/
def zeroEpoch (cfg : Config) : Epoch :=
  List.replicate (n_epoch_samples cfg) (List.replicate cfg.picks.length 0)

/-- The connection-scoped mutable state: the rolling epoch buffer
(`self._buffer`) and the watermark `self._last_ts`. -/
structure ConnState where
  buffer : List Epoch
  last_ts : Option ℚ
deriving DecidableEq

/-- The full mutable state of an `EpochsStream` instance. `conn` is `some`
exactly when the connection-scoped attributes are initialized (`connected`).
`last` and `new_new_epochs` model the attributes created by the assignments
`self._last = ts[events[-1, 0]]` (line 465) and `self._new_new_epochs = 0`
(line 373): they are ordinary attributes, distinct from `last_ts` and
`n_new_epochs`, and are not cleared by `_reset_variables`. -/
structure State where
  conn : Option ConnState
  n_new_epochs : ℕ
  last : Option ℚ
  new_new_epochs : Option ℕ
deriving DecidableEq

/-- `EpochsStream._reset_variables`: clears every connection-scoped
attribute and zeroes `_n_new_epochs` (the attributes `_last` and
`_new_new_epochs` are not among the ones it resets). -/
def reset_variables (st : State) : State :=
  { conn := none, n_new_epochs := 0, last := st.last, new_new_epochs := st.new_new_epochs }

/-- The `connected` property: whether the connection-scoped attributes are
initialized (they are all set together, so `conn` is a single `Option`). -/
def connected (st : State) : Bool :=
  st.conn.isSome

/-- State of a fresh instance right after `connect`: a zero-filled buffer of
`bufsize` epoch slots and no watermark. -/
def connectState (cfg : Config) : State :=
  { conn := some { buffer := List.replicate cfg.bufsize (zeroEpoch cfg), last_ts := none },
    n_new_epochs := 0, last := none, new_new_epochs := none }

/-- The inputs one `_acquire` call reads from the connected stream(s):
the new-sample counters, the current data window with its timestamps, and —
when a separate event stream is configured — the event-stream window. -/
structure AcqInput where
  n_new_main : ℕ
  data : List (List ℤ)
  ts : List ℚ
  n_new_events : ℕ
  event_data : List (List ℤ)
  ts_events : List ℚ
deriving DecidableEq

/-- Modelled from the spec: stands in for `mne.event._find_events`, an
external dependency that is not part of this repository. Per the spec, an
onset is recorded where a channel's value changes from its previous value,
and only onset ("rising edge", nonzero new value) events are retained, as
rows `(sample_index, previous_value, new_code)`. -/
def find_channel_onsets (d : List ℤ) : List Event :=
  (List.range d.length).filterMap (fun i =>
    if i = 0 then none
    else if d.getD i 0 ≠ d.getD (i - 1) 0 ∧ d.getD i 0 ≠ 0 then
      some ⟨i, d.getD (i - 1) 0, d.getD i 0⟩
    else none)

/-- Insertion into a list kept sorted by sample index. -/
def insertByIdx (e : Event) : List Event → List Event
  | [] => [e]
  | x :: xs => if e.idx ≤ x.idx then e :: x :: xs else x :: insertByIdx e xs

/-- Sort events by sample index (`events[np.argsort(events[:, 0])]`). -/
def sortByIdx (es : List Event) : List Event :=
  es.foldr insertByIdx []

/-- Modelled from the spec: stands in for `mne.event._find_unique_events`
(external dependency) — deduplicate by sample index, keeping per index the
code of maximal absolute value ("absolute-value max suppression across
simultaneous codes"). -/
def dedupeByIdx (es : List Event) : List Event :=
  es.foldl (fun acc e =>
    if acc.any (fun x => decide (x.idx = e.idx)) then
      acc.map (fun x => if x.idx = e.idx ∧ x.code.natAbs < e.code.natAbs then e else x)
    else acc ++ [e]) []

/-- `_find_events_in_stim_channels`: detect per channel, concatenate,
deduplicate, sort by sample index (the per-channel detection is modelled
from the spec, see `find_channel_onsets`). -/
def find_events_in_stim_channels (rows : List (List ℤ)) : List Event :=
  sortByIdx (dedupeByIdx (rows.map find_channel_onsets).flatten)

/-- Modelled from the spec: what the irregular event-stream scenario is
documented to produce — for every sample of the event stream, exactly one
event whose code is the index of the event-stream channel carrying the
(nonzero) maximum for that sample ("named by the channel carrying the
nonzero maximum"). `event_data` has shape `(channels, samples)`. -/
def spec_irregular_events (event_data : List (List ℤ)) (n_events : ℕ) : List Event :=
  (List.range n_events).map (fun k =>
    ⟨k, 0, (np_argmax (event_data.map (fun row => row.getD k 0)) : ℤ)⟩)

/-- `_prune_events`, translated clause by clause: (1) keep only codes in the
`event_id` allow-list, when one is given; (2) when the events come from a
separate stream, re-anchor each event's index into `ts` via
`np.searchsorted(ts, ts_events[idx], side='left')`; (3) drop events that
cannot fit an entire epoch (`idx + buffer_size <= ts.size`); (4) drop events
at or before the watermark (`ts[idx] > last_ts`). -/
def prune_events (events : List Event) (event_id : Option (List ℤ)) (buffer_size : ℕ)
    (ts : List ℚ) (last_ts : Option ℚ) (ts_events : Option (List ℚ)) : List Event :=
  let ev1 : List Event := match event_id with
    | some ids => events.filter (fun e => ids.contains e.code)
    | none => events
  let ev2 : List Event := match ts_events with
    | some tse => ev1.map (fun (e : Event) =>
        { e with idx := np_searchsorted_left ts (tse.getD e.idx 0) })
    | none => ev1
  let ev3 : List Event := ev2.filter (fun e => decide (e.idx + buffer_size ≤ ts.length))
  match last_ts with
  | some w => ev3.filter (fun e => qlt w (ts.getD e.idx 0))
  | none => ev3

/-- `_process_data`: the post-processing hook, a no-op in the source. -/
def process_data (data : List Epoch) : List Epoch :=
  data

def err_vstack : String := "vstack: input array dimensions mismatch"

def err_event_pick_index : String := "event channel index out of range"

def err_pick_index : String := "pick index out of range"

def err_broadcast_epoch : String := "could not broadcast epoch slice"

def err_broadcast_buffer : String := "could not broadcast batch into buffer"

def err_ts_index : String := "timestamp index out of range"

def err_disconnected : String := "attribute of torn-down instance is None"

/-- One iteration of the extraction loop of `_acquire`:
`data[self._picks, start : start + self._buffer.shape[1]].T`, assigned into a
preallocated `(n_epoch_samples, picks.length)` slot. numpy assignment
broadcasts: a slice with the full `n_epoch_samples` columns is copied; a
slice with exactly one column is silently repeated across all
`n_epoch_samples` rows (shape `(1, picks)` broadcast into
`(n_epoch_samples, picks)`); any other column count raises. -/
def extract_epoch (cfg : Config) (data : List (List ℤ)) (start : ℤ) : Except String Epoch :=
  if (cfg.picks.map
        (fun p => pySlice (data.getD p []) start (start + (n_epoch_samples cfg : ℤ)))).all
      (fun r => decide (r.length = n_epoch_samples cfg)) then
    Except.ok (transposeT (n_epoch_samples cfg)
      (cfg.picks.map
        (fun p => pySlice (data.getD p []) start (start + (n_epoch_samples cfg : ℤ)))))
  else if (cfg.picks.map
        (fun p => pySlice (data.getD p []) start (start + (n_epoch_samples cfg : ℤ)))).all
      (fun r => decide (r.length = 1)) then
    Except.ok (List.replicate (n_epoch_samples cfg)
      ((cfg.picks.map
          (fun p => pySlice (data.getD p []) start (start + (n_epoch_samples cfg : ℤ)))).map
        (fun r => r.getD 0 0)))
  else Except.error err_broadcast_epoch

/-- `mapM` over `Except String`, written with explicit matches. -/
def mapExcept {α β : Type} (f : α → Except String β) : List α → Except String (List β)
  | [] => Except.ok []
  | a :: t =>
      match f a with
      | Except.error e => Except.error e
      | Except.ok b =>
          match mapExcept f t with
          | Except.error e => Except.error e
          | Except.ok bs => Except.ok (b :: bs)

/-- The three event-detection branches of `_acquire`. The irregular branch
models `np.vstack([np.arange(ts_events.size), np.zeros(ts_events.size),
np.argmax(data, axis=1)])` — note that the source reads `data` (the MAIN
stream's window, one argmax per main channel, taken along the time axis),
not `data_events`. The error condition is exact: `np.vstack` raises unless
the three rows have equal length. When the stack succeeds the source is left
with a `(3, ts_events.size)` array whose rows, not columns, the downstream
code then misreads as events; the model abstracts that misshapen success
case as one event per event-stream sample. -/
def detect_events (cfg : Config) (inp : AcqInput) : Except String (List Event) :=
  match cfg.source with
  | .mainStim =>
      if cfg.event_channel_picks.all (fun p => decide (p < inp.data.length)) then
        Except.ok (find_events_in_stim_channels
          (cfg.event_channel_picks.map (fun p => inp.data.getD p [])))
      else Except.error err_event_pick_index
  | .sideRegular =>
      Except.ok (find_events_in_stim_channels inp.event_data)
  | .sideIrregular =>
      let codes := inp.data.map np_argmax
      if codes.length = inp.ts_events.length then
        Except.ok ((List.range inp.ts_events.length).map
          (fun k => ⟨k, 0, (codes.getD k 0 : ℤ)⟩))
      else Except.error err_vstack

/-- Detection followed by pruning, with the per-branch arguments of the three
`_prune_events` call sites: the main-stream branch passes `ts_events=None`;
the irregular branch passes `event_id=None` (no allow-list filtering). -/
def detect_and_prune (cfg : Config) (c : ConnState) (inp : AcqInput) :
    Except String (List Event) :=
  match detect_events cfg inp with
  | Except.error e => Except.error e
  | Except.ok events =>
      match cfg.source with
      | .mainStim =>
          Except.ok (prune_events events (some cfg.event_id) (n_epoch_samples cfg)
            inp.ts c.last_ts none)
      | .sideRegular =>
          Except.ok (prune_events events (some cfg.event_id) (n_epoch_samples cfg)
            inp.ts c.last_ts (some inp.ts_events))
      | .sideIrregular =>
          Except.ok (prune_events events none (n_epoch_samples cfg)
            inp.ts c.last_ts (some inp.ts_events))

/-- The update computed by a successful, non-empty acquisition step: the
batch of new epochs and the value `ts[events[-1, 0]]` that line 465 of
`_acquire` assigns. -/
structure AcqUpdate where
  batch : List Epoch
  last_val : ℚ
deriving DecidableEq

/-- Checked list indexing (`ts[i]` raises `IndexError` out of range). -/
def ts_get (ts : List ℚ) (i : ℕ) : Except String ℚ :=
  if h : i < ts.length then Except.ok ts[i] else Except.error err_ts_index

/-- The body of `EpochsStream._acquire` inside the `try:` block, up to the
state mutations. Returns `ok none` for the two early-return paths (no new
samples on either source / no event survived pruning), `ok (some update)`
when a batch is extracted, and `error` when any numpy operation raises. -/
def acquire_body (cfg : Config) (c : ConnState) (inp : AcqInput) :
    Except String (Option AcqUpdate) :=
  if inp.n_new_main = 0 ∨ (cfg.source ≠ EventSource.mainStim ∧ inp.n_new_events = 0) then
    Except.ok none
  else
    match detect_and_prune cfg c inp with
    | Except.error e => Except.error e
    | Except.ok [] => Except.ok none
    | Except.ok (e0 :: rest) =>
        if cfg.picks.all (fun p => decide (p < inp.data.length)) then
          match mapExcept
              (fun ev => extract_epoch cfg inp.data ((ev.idx : ℤ) + epoch_shift cfg))
              (e0 :: rest) with
          | Except.error msg => Except.error msg
          | Except.ok batch =>
              if (e0 :: rest).length ≤ cfg.bufsize then
                match ts_get inp.ts ((e0 :: rest).getLastD ⟨0, 0, 0⟩).idx with
                | Except.error msg => Except.error msg
                | Except.ok tsv => Except.ok (some ⟨process_data batch, tsv⟩)
              else Except.error err_broadcast_buffer
        else Except.error err_pick_index

/-- `np.roll(buffer, -k, axis=0)`: bring element `k` to the front. -/
def np_roll_neg (l : List Epoch) (k : ℕ) : List Epoch :=
  l.drop (k % l.length) ++ l.take (k % l.length)

/-- Lines 462–463 of `_acquire`: `np.roll(self._buffer, -k, axis=0)` followed
by `self._buffer[-k:] = batch` (with `k = batch.length`, which every call
site bounds by the capacity). -/
def roll_overwrite (buf : List Epoch) (batch : List Epoch) : List Epoch :=
  (np_roll_neg buf batch.length).take ((np_roll_neg buf batch.length).length - batch.length)
    ++ batch

/-- The outcome of one `_acquire` call: the state afterwards, the exception
propagated to the caller (if any), and whether `logger.exception` ran. -/
structure StepResult where
  state : State
  raised : Option String
  logged : Bool
deriving DecidableEq

def envOff : String := "false"

def envOn : String := "true"

/-- ASCII lower-casing of one character (`str.lower` restricted to the
ASCII values an environment flag holds). -/
def lowerChar (c : Char) : Char :=
  if 65 ≤ c.toNat ∧ c.toNat ≤ 90 then Char.ofNat (c.toNat + 32) else c

/-- `os.getenv("MNE_LSL_RAISE_STREAM_ERRORS", "false").lower() == "true"`:
whether step errors are re-raised, from the environment variable's value. -/
def strict_mode (env : String) : Bool :=
  env.data.map lowerChar == envOn.data

/-- One full `EpochsStream._acquire` call. On success with a non-empty batch
it rolls the buffer, assigns `self._last` (leaving the watermark `_last_ts`
untouched — the source writes `self._last`, not `self._last_ts`) and adds the
batch size to `_n_new_epochs`. On an exception it logs, resets all
connection-scoped state, and re-raises only in strict mode. -/
def acquire_step (cfg : Config) (env : String) (st : State) (inp : AcqInput) : StepResult :=
  match st.conn with
  | none =>
      ⟨reset_variables st, if strict_mode env then some err_disconnected else none, true⟩
  | some c =>
      match acquire_body cfg c inp with
      | Except.ok none => ⟨st, none, false⟩
      | Except.ok (some u) =>
          ⟨{ st with
              conn := some { buffer := roll_overwrite c.buffer u.batch, last_ts := c.last_ts },
              last := some u.last_val,
              n_new_epochs := st.n_new_epochs + u.batch.length },
            none, false⟩
      | Except.error e =>
          ⟨reset_variables st, if strict_mode env then some e else none, true⟩

/-- `np.transpose(self._buffer[:, :, picks], axes=(0, 2, 1))`: the
`(epochs, channels, samples)` view returned by `get_data`. -/
def select_view (buf : List Epoch) (picks : List ℕ) : List (List (List ℤ)) :=
  buf.map (fun ep => picks.map (fun p => ep.map (fun row => row.getD p 0)))

/-- `EpochsStream.get_data`: returns the transposed channel-selected view of
the buffer and performs the assignment `self._new_new_epochs = 0` (line 373 —
a fresh attribute; `self._n_new_epochs` is left untouched). `none` models the
exception raised when the instance is not connected (`self._info` is `None`). -/
def get_data (st : State) (picks : List ℕ) :
    Option (List (List (List ℤ)) × State) :=
  match st.conn with
  | none => none
  | some c =>
      some (select_view c.buffer picks, { st with new_new_epochs := some 0 })

/-- Fold a sequence of acquisition steps over the state. -/
def run_steps (cfg : Config) (env : String) (st : State) (inputs : List AcqInput) : State :=
  inputs.foldl (fun s i => (acquire_step cfg env s i).state) st

/-! ## Helper lemmas -/

theorem mapExcept_ok_length {α β : Type} (f : α → Except String β) :
    ∀ (es : List α) (bs : List β), mapExcept f es = Except.ok bs → bs.length = es.length := by
  intro es
  induction es with
  | nil =>
      intro bs h
      cases h
      rfl
  | cons a t ih =>
      intro bs h
      unfold mapExcept at h
      cases hfa : f a with
      | error e => rw [hfa] at h; cases h
      | ok b =>
          rw [hfa] at h
          cases hmt : mapExcept f t with
          | error e => rw [hmt] at h; cases h
          | ok bt =>
              rw [hmt] at h
              cases h
              simp [ih bt hmt]

theorem mapExcept_ok_mem {α β : Type} (f : α → Except String β) :
    ∀ (es : List α) (bs : List β), mapExcept f es = Except.ok bs →
      ∀ b ∈ bs, ∃ a, f a = Except.ok b := by
  intro es
  induction es with
  | nil =>
      intro bs h
      cases h
      intro b hb
      cases hb
  | cons a t ih =>
      intro bs h
      unfold mapExcept at h
      cases hfa : f a with
      | error e => rw [hfa] at h; cases h
      | ok b0 =>
          rw [hfa] at h
          cases hmt : mapExcept f t with
          | error e => rw [hmt] at h; cases h
          | ok bt =>
              rw [hmt] at h
              cases h
              intro b hb
              rcases List.mem_cons.mp hb with hb | hb
              · exact ⟨a, by rw [hfa, hb]⟩
              · exact ih bt hmt b hb

theorem extract_epoch_ok_shape (cfg : Config) (data : List (List ℤ)) (start : ℤ)
    (ep : Epoch) (h : extract_epoch cfg data start = Except.ok ep) :
    ep.length = n_epoch_samples cfg ∧ ∀ row ∈ ep, row.length = cfg.picks.length := by
  unfold extract_epoch at h
  split at h
  · cases h
    refine ⟨by simp [transposeT], ?_⟩
    intro row hrow
    simp only [transposeT, List.mem_map] at hrow
    obtain ⟨j, hj, hrow⟩ := hrow
    simp [← hrow]
  · split at h
    · cases h
      refine ⟨by simp, ?_⟩
      intro row hrow
      have hre := List.eq_of_mem_replicate hrow
      subst hre
      simp
    · cases h

theorem roll_overwrite_eq_drop (buf batch : List Epoch) (h : batch.length ≤ buf.length) :
    roll_overwrite buf batch = buf.drop batch.length ++ batch := by
  unfold roll_overwrite np_roll_neg
  rcases Nat.lt_or_ge batch.length buf.length with hlt | hge
  · rw [Nat.mod_eq_of_lt hlt]
    congr 1
    have h3 : (buf.drop batch.length ++ buf.take batch.length).length - batch.length
        = (buf.drop batch.length).length := by
      simp only [List.length_append, List.length_drop, List.length_take]
      omega
    rw [h3]
    exact List.take_left' rfl
  · have hk : batch.length = buf.length := Nat.le_antisymm h hge
    rcases Nat.eq_zero_or_pos buf.length with h0 | hpos
    · have hb : buf = [] := List.length_eq_zero.mp h0
      have hbt : batch = [] := List.length_eq_zero.mp (by omega)
      subst hb
      subst hbt
      rfl
    · rw [hk, Nat.mod_self]
      simp

theorem pyIdx_natCast (n s : ℕ) : pyIdx n (s : ℤ) = min s n := by
  simp [pyIdx, Int.toNat_natCast]

theorem pySlice_natCast (l : List ℤ) (s n : ℕ) :
    pySlice l (s : ℤ) ((s : ℤ) + (n : ℤ))
      = (l.take (min (s + n) l.length)).drop (min s l.length) := by
  have hc : (s : ℤ) + (n : ℤ) = ((s + n : ℕ) : ℤ) := by push_cast; ring
  rw [pySlice, hc, pyIdx_natCast, pyIdx_natCast]

theorem pySlice_length_of_le (l : List ℤ) (s n : ℕ) (h : s + n ≤ l.length) :
    (pySlice l (s : ℤ) ((s : ℤ) + (n : ℤ))).length = n := by
  rw [pySlice_natCast]
  simp only [List.length_drop, List.length_take]
  omega

theorem pySlice_getD (l : List ℤ) (s n j : ℕ) (hsn : s + n ≤ l.length) (hj : j < n) :
    (pySlice l (s : ℤ) ((s : ℤ) + (n : ℤ))).getD j 0 = l.getD (s + j) 0 := by
  rw [pySlice_natCast, Nat.min_eq_left hsn, Nat.min_eq_left (by omega)]
  rw [List.getD_eq_getElem?_getD, List.getD_eq_getElem?_getD, List.getElem?_drop,
      List.getElem?_take]
  rw [if_pos (by omega)]

theorem transposeT_getD (n : ℕ) (rows : List (List ℤ)) (j : ℕ) (hj : j < n) :
    (transposeT n rows).getD j [] = rows.map (fun r => r.getD j 0) := by
  unfold transposeT
  rw [List.getD_eq_getElem?_getD, List.getElem?_map, List.getElem?_range hj]
  rfl

theorem getD_append_left {α : Type} (l1 l2 : List α) (i : ℕ) (d : α) (h : i < l1.length) :
    (l1 ++ l2).getD i d = l1.getD i d := by
  rw [List.getD_eq_getElem?_getD, List.getD_eq_getElem?_getD, List.getElem?_append,
      if_pos h]

theorem getD_drop {α : Type} (l : List α) (k i : ℕ) (d : α) :
    (l.drop k).getD i d = l.getD (k + i) d := by
  rw [List.getD_eq_getElem?_getD, List.getD_eq_getElem?_getD, List.getElem?_drop]

/-! ## Concrete configurations and inputs used by the claim theorems -/

/-- Epoch span `[0, 1)` s at 2 Hz (2 samples per epoch, no shift), capacity 2,
allow-list `{1}`, data channel 0, stim channel 1. -/
def cfg1 : Config :=
  { bufsize := 2, tmin := 0, tmax := 1, sfreq := 2, event_id := [1],
    picks := [0], event_channel_picks := [1], source := EventSource.mainStim }

/-- A 6-sample window whose stim channel rises to 1 at sample 1. -/
def inp1 : AcqInput :=
  { n_new_main := 1, data := [[10, 11, 12, 13, 14, 15], [0, 1, 1, 0, 0, 0]],
    ts := [0, 1, 2, 3, 4, 5], n_new_events := 0, event_data := [], ts_events := [] }

/-- A connected state holding one 1-sample 1-channel epoch and one pending
new epoch. -/
def stC2 : State :=
  { conn := some ⟨[[[7]]], none⟩, n_new_epochs := 1, last := none, new_new_epochs := none }

/-- Irregular event-stream configuration. -/
def cfg3 : Config :=
  { bufsize := 2, tmin := 0, tmax := 1, sfreq := 2, event_id := [],
    picks := [0], event_channel_picks := [0], source := EventSource.sideIrregular }

/-- Two main channels of four samples; one event-stream sample over three
one-hot channels whose maximum sits on channel 1. -/
def inp3 : AcqInput :=
  { n_new_main := 1, data := [[1, 2, 3, 4], [5, 6, 7, 8]], ts := [0, 1, 2, 3],
    n_new_events := 1, event_data := [[0], [3], [1]], ts_events := [mkRat 5 2] }

/-- Scenario A configuration: capacity 3, `tmin = -0.2`, `tmax = 0.5`,
100 Hz — 70 samples per epoch and a shift of `-20`. -/
def cfgA : Config :=
  { bufsize := 3, tmin := mkRat (-1) 5, tmax := mkRat 1 2, sfreq := 100, event_id := [1],
    picks := [0], event_channel_picks := [1], source := EventSource.mainStim }

/-- Data channel of scenario A: sample `j` holds the value `j`. -/
def rowA : List ℤ := (List.range 130).map (fun j => (j : ℤ))

/-- Stim channel of scenario A: a single rising edge to 1 at sample 50. -/
def stimA : List ℤ := (List.range 130).map (fun j => if 50 ≤ j then 1 else 0)

/-- Timestamps of scenario A: sample `k` at time `k`. -/
def tsA : List ℚ := (List.range 130).map (fun k => (k : ℚ))

def inpA : AcqInput :=
  { n_new_main := 1, data := [rowA, stimA], ts := tsA,
    n_new_events := 0, event_data := [], ts_events := [] }

/-- The epoch scenario A must extract: samples 30 … 99 of the data channel. -/
def epochA : Epoch := (List.range 70).map (fun j => [((30 + j : ℕ) : ℤ)])

/-- Configuration whose epochs lie entirely before the trigger:
`tmin = -2`, `tmax = -1` at 10 Hz (10 samples per epoch, shift `-20`). -/
def cfg4x : Config :=
  { bufsize := 2, tmin := mkRat (-2) 1, tmax := mkRat (-1) 1, sfreq := 10,
    event_id := [1], picks := [0], event_channel_picks := [1], source := EventSource.mainStim }

/-- A 15-sample data channel holding the value `j` at sample `j`. -/
def row4x : List ℤ := (List.range 15).map (fun j => (j : ℤ))

def ts4x : List ℚ := (List.range 15).map (fun k => (k : ℚ))

/-- Two-sample epochs, one picked channel. -/
def cfgw4 : Config :=
  { bufsize := 1, tmin := 0, tmax := 1, sfreq := 2, event_id := [1],
    picks := [0], event_channel_picks := [0], source := EventSource.mainStim }

def tsB : List ℚ := (List.range 20).map (fun k => (k : ℚ))

def epZ : Epoch := [[0]]

def epW1 : Epoch := [[1]]

def epW2 : Epoch := [[2]]

def epW3 : Epoch := [[3]]

def epW4 : Epoch := [[4]]

def cfg8 : Config :=
  { bufsize := 1, tmin := 0, tmax := 1, sfreq := 1, event_id := [1],
    picks := [0], event_channel_picks := [0], source := EventSource.mainStim }

def inp8 : AcqInput :=
  { n_new_main := 0, data := [[0, 0]], ts := [0, 1],
    n_new_events := 0, event_data := [], ts_events := [] }

/-- A configuration whose `picks` contain the out-of-range channel 3. -/
def cfg9 : Config :=
  { bufsize := 1, tmin := 0, tmax := 1, sfreq := 1, event_id := [1],
    picks := [3], event_channel_picks := [1], source := EventSource.mainStim }

/-- A two-sample window with an onset at sample 1, over only two channels —
the fancy index `data[self._picks, ...]` with pick 3 raises. -/
def inp9 : AcqInput :=
  { n_new_main := 1, data := [[0, 0], [0, 1]], ts := [0, 1],
    n_new_events := 0, event_data := [], ts_events := [] }

/-- `tmin = -0.2`, 100 Hz: shift `-20`, 70 samples per epoch. -/
def cfg10 : Config :=
  { bufsize := 2, tmin := mkRat (-1) 5, tmax := mkRat 1 2, sfreq := 100,
    event_id := [1], picks := [0], event_channel_picks := [1], source := EventSource.mainStim }

def ts10 : List ℚ := (List.range 100).map (fun k => (k : ℚ))

/-! ## Claim C1 -/

/-- C1 (code bug): the watermark is never updated. The source executes
`self._last = ts[events[-1, 0]]` (line 465) instead of assigning
`self._last_ts`, so after a step that extracts a non-empty batch the
watermark `last_ts` is still `none` (the onset's timestamp landed in the
unrelated attribute `last`), and running the very same step again re-extracts
the event whose timestamp (1) is equal to the latest previously extracted
onset's timestamp — the new-epoch counter reaches 2 and the buffer holds the
same epoch twice. -/
theorem watermark_never_updated_bug :
    (acquire_step cfg1 envOff (connectState cfg1) inp1).state =
      { conn := some ⟨[zeroEpoch cfg1, [[11], [12]]], none⟩, n_new_epochs := 1,
        last := some 1, new_new_epochs := none } ∧
    (acquire_step cfg1 envOff
        ((acquire_step cfg1 envOff (connectState cfg1) inp1).state) inp1).state =
      { conn := some ⟨[[[11], [12]], [[11], [12]]], none⟩, n_new_epochs := 2,
        last := some 1, new_new_epochs := none } := by
  exact ⟨by decide, by decide⟩

/-! ## Claim C2 -/

/-- C2 (code bug): `get_data` does not reset `n_new_epochs`. The source
executes `self._new_new_epochs = 0` (line 373), creating a fresh attribute,
so after the call the counter still reads 1 — for any `picks` argument,
contradicting the claim that every data read resets the counter to 0. -/
theorem get_data_counter_not_reset_bug :
    get_data stC2 [0]
      = some ([[[7]]],
          { conn := some ⟨[[[7]]], none⟩, n_new_epochs := 1, last := none,
            new_new_epochs := some 0 }) ∧
    (1 : ℕ) ≠ 0 := by
  exact ⟨by decide, by decide⟩

/-! ## Claim C3 -/

/-- C3 (code bug): in the irregular event-stream branch the source builds the
event codes from `np.argmax(data, axis=1)` — the MAIN stream's window, one
value per main channel — instead of from `data_events`. Here the main stream
has 2 channels but the event stream delivered 1 sample, so `np.vstack`
raises and the step tears the state down instead of producing, per the
claim, exactly one event named after event-stream channel 1 (the argmax
channel, as computed by the spec model). -/
theorem irregular_events_argmax_bug :
    acquire_body cfg3 ⟨List.replicate 2 (zeroEpoch cfg3), none⟩ inp3
      = Except.error err_vstack ∧
    acquire_step cfg3 envOff (connectState cfg3) inp3
      = ⟨reset_variables (connectState cfg3), none, true⟩ ∧
    spec_irregular_events inp3.event_data inp3.ts_events.length = [⟨0, 0, 1⟩] := by
  refine ⟨by rfl, by decide, by decide⟩

/-! ## Claim C5 -/

/-- The survivor predicate asserted by claim C5: code in the allow-list, room
for a full epoch before the right edge, and strictly after the watermark. -/
def prune_keep (allow : List ℤ) (n : ℕ) (ts : List ℚ) (last_ts : Option ℚ)
    (e : Event) : Bool :=
  allow.contains e.code && decide (e.idx + n ≤ ts.length) &&
    (match last_ts with
     | none => true
     | some w => qlt w (ts.getD e.idx 0))

/-- C5: with a regularly sampled event source (`ts_events = none`, the branch
with an active allow-list), pruning removes exactly the onsets whose code is
outside the allow-list, the onsets for which `idx + epoch_sample_count`
exceeds the available samples, and the onsets at or before the watermark —
and no others: the result is the filter of the survivor predicate, a sublist
of the input, and ascending order is preserved. -/
theorem prune_events_characterization (events : List Event) (allow : List ℤ) (n : ℕ)
    (ts : List ℚ) (last_ts : Option ℚ) (_hn : 1 ≤ n) :
    prune_events events (some allow) n ts last_ts none
      = events.filter (prune_keep allow n ts last_ts)
    ∧ (prune_events events (some allow) n ts last_ts none).Sublist events
    ∧ (events.Pairwise (fun a b => a.idx ≤ b.idx) →
        (prune_events events (some allow) n ts last_ts none).Pairwise
          (fun a b => a.idx ≤ b.idx)) := by
  have hchar : prune_events events (some allow) n ts last_ts none
      = events.filter (prune_keep allow n ts last_ts) := by
    cases last_ts with
    | none =>
        simp only [prune_events, List.filter_filter]
        apply List.filter_congr
        intro x hx
        simp only [prune_keep]
        cases h1 : allow.contains x.code <;>
          cases h2 : decide (x.idx + n ≤ ts.length) <;> simp [h1, h2]
    | some w =>
        simp only [prune_events, List.filter_filter]
        apply List.filter_congr
        intro x hx
        simp only [prune_keep]
        cases h1 : allow.contains x.code <;>
          cases h2 : decide (x.idx + n ≤ ts.length) <;>
            cases h3 : qlt w (ts.getD x.idx 0) <;> simp [h1, h2, h3]
  refine ⟨hchar, ?_, ?_⟩
  · rw [hchar]
    exact List.filter_sublist events
  · intro hp
    rw [hchar]
    exact List.Pairwise.sublist (List.filter_sublist events) hp

/-- C5 witness (Scenario B): allow-list `{target: 2}`, fed onsets with codes
1 and 2 — exactly the code-2 onsets survive, in their original order. -/
theorem prune_events_characterization_witness :
    (1 : ℕ) ≤ 2 ∧
    prune_events [⟨3, 0, 1⟩, ⟨5, 0, 2⟩, ⟨8, 0, 1⟩, ⟨9, 0, 2⟩] (some [2]) 2 tsB none none
      = [⟨5, 0, 2⟩, ⟨9, 0, 2⟩] := by
  have h := prune_events_characterization [⟨3, 0, 1⟩, ⟨5, 0, 2⟩, ⟨8, 0, 1⟩, ⟨9, 0, 2⟩]
    [2] 2 tsB none (by decide)
  exact ⟨by decide, h.1.trans (by decide)⟩

/-! ## Claim C6 -/

/-- C6: `roll_overwrite` — the `np.roll` + tail-assignment pair of lines
462–463 — is a ring-buffer bulk push: it shifts the buffer left by the batch
size, discards the oldest epochs and writes the batch at the tail; composing
two pushes leaves exactly the capacity-many most recent epochs in
chronological order. -/
theorem roll_overwrite_ring_push (buf b1 b2 : List Epoch)
    (h1 : b1.length ≤ buf.length) (h2 : b2.length ≤ buf.length) :
    roll_overwrite buf b1 = buf.drop b1.length ++ b1 ∧
    roll_overwrite (roll_overwrite buf b1) b2
      = (buf ++ b1 ++ b2).drop (b1.length + b2.length) := by
  have e1 := roll_overwrite_eq_drop buf b1 h1
  have hlen : (buf.drop b1.length ++ b1).length = buf.length := by
    simp only [List.length_append, List.length_drop]
    omega
  have h2b : b2.length ≤ (buf.drop b1.length ++ b1).length := by rw [hlen]; exact h2
  have e2 := roll_overwrite_eq_drop (buf.drop b1.length ++ b1) b2 h2b
  refine ⟨e1, ?_⟩
  rw [e1, e2]
  have hB : (buf.drop b1.length ++ b1) ++ b2 = (buf ++ b1 ++ b2).drop b1.length := by
    rw [List.append_assoc buf b1 b2, List.drop_append_of_le_length h1,
        List.append_assoc]
  calc (buf.drop b1.length ++ b1).drop b2.length ++ b2
      = ((buf.drop b1.length ++ b1) ++ b2).drop b2.length :=
        (List.drop_append_of_le_length h2b).symm
    _ = ((buf ++ b1 ++ b2).drop b1.length).drop b2.length := by rw [hB]
    _ = (buf ++ b1 ++ b2).drop (b1.length + b2.length) := List.drop_drop _ _ _

/-- C6 witness (Scenario C): capacity 3, two back-to-back batches of 2 —
after the second push the buffer holds the 3 most recent epochs in
chronological order (the oldest of the first batch is evicted). -/
theorem roll_overwrite_ring_push_witness :
    roll_overwrite [epZ, epZ, epZ] [epW1, epW2] = [epZ, epW1, epW2] ∧
    roll_overwrite (roll_overwrite [epZ, epZ, epZ] [epW1, epW2]) [epW3, epW4]
      = [epW2, epW3, epW4] := by
  have h := roll_overwrite_ring_push [epZ, epZ, epZ] [epW1, epW2] [epW3, epW4]
    (by decide) (by decide)
  exact ⟨h.1.trans (by decide), h.2.trans (by decide)⟩

/-! ## Claim C8 -/

/-- C8: an acquisition step in which the source stream has zero new samples
(or the configured separate event stream has zero new samples), or in which
zero events survive detection and pruning, returns with the state — buffer,
watermark and new-epoch counter — unchanged, raising no error and logging
none. -/
theorem acquire_step_noop (cfg : Config) (env : String) (st : State) (inp : AcqInput)
    (c : ConnState) (hc : st.conn = some c)
    (h : inp.n_new_main = 0 ∨ (cfg.source ≠ EventSource.mainStim ∧ inp.n_new_events = 0)
         ∨ detect_and_prune cfg c inp = Except.ok []) :
    acquire_step cfg env st inp = ⟨st, none, false⟩ := by
  have hbody : acquire_body cfg c inp = Except.ok none := by
    by_cases hz : inp.n_new_main = 0 ∨ (cfg.source ≠ EventSource.mainStim ∧ inp.n_new_events = 0)
    · simp [acquire_body, hz]
    · rcases h with h | h | h
      · exact absurd (Or.inl h) hz
      · exact absurd (Or.inr h) hz
      · simp [acquire_body, hz, h]
  simp [acquire_step, hc, hbody]

/-- C8 witness: a step with zero new samples on a freshly connected stream
leaves the state untouched. -/
theorem acquire_step_noop_witness :
    acquire_step cfg8 envOff (connectState cfg8) inp8
      = ⟨connectState cfg8, none, false⟩ := by
  exact acquire_step_noop cfg8 envOff (connectState cfg8) inp8
    ⟨List.replicate 1 (zeroEpoch cfg8), none⟩ rfl (Or.inl rfl)

/-! ## Claim C9 -/

/-- C9: any exception raised inside the acquisition body is caught — the
error is logged, the connection-scoped state is reset to the disconnected
state, and the exception propagates to the caller if and only if the
strict-mode environment flag is set. -/
theorem acquire_step_error_handling (cfg : Config) (env : String) (st : State)
    (inp : AcqInput) (c : ConnState) (e : String) (hc : st.conn = some c)
    (he : acquire_body cfg c inp = Except.error e) :
    acquire_step cfg env st inp
      = ⟨reset_variables st, if strict_mode env then some e else none, true⟩
    ∧ (reset_variables st).conn = none
    ∧ ((acquire_step cfg env st inp).raised.isSome ↔ strict_mode env = true) := by
  have h1 : acquire_step cfg env st inp
      = ⟨reset_variables st, if strict_mode env then some e else none, true⟩ := by
    simp [acquire_step, hc, he]
  refine ⟨h1, rfl, ?_⟩
  rw [h1]
  cases hb : strict_mode env <;> simp [hb]

/-- C9 witness: with strict mode off, a failing extraction (an out-of-range
pick) completes by logging and resetting to disconnected, and no exception
reaches the caller. -/
theorem acquire_step_error_handling_witness :
    acquire_body cfg9 ⟨List.replicate 1 (zeroEpoch cfg9), none⟩ inp9
      = Except.error err_pick_index ∧
    acquire_step cfg9 envOff (connectState cfg9) inp9
      = ⟨reset_variables (connectState cfg9), none, true⟩ ∧
    ((acquire_step cfg9 envOff (connectState cfg9) inp9).raised.isSome
      ↔ strict_mode envOff = true) := by
  have he : acquire_body cfg9 ⟨List.replicate 1 (zeroEpoch cfg9), none⟩ inp9
      = Except.error err_pick_index := by rfl
  have h := acquire_step_error_handling cfg9 envOff (connectState cfg9) inp9
    ⟨List.replicate 1 (zeroEpoch cfg9), none⟩ err_pick_index rfl he
  refine ⟨he, ?_, h.2.2⟩
  rw [h.1, show strict_mode envOff = false from by decide]
  rfl

/-! ## Claim C7 -/

/-- Well-formedness of the epoch buffer: exactly `bufsize` slots, each of
shape `(n_epoch_samples, picks.length)`. -/
def buffer_wf (cfg : Config) (buf : List Epoch) : Prop :=
  buf.length = cfg.bufsize ∧
  ∀ ep ∈ buf, ep.length = n_epoch_samples cfg ∧ ∀ row ∈ ep, row.length = cfg.picks.length

/-- Invariant maintained by acquisition: while connected, the buffer is
well-formed and every slot not yet overwritten by an extracted epoch still
holds the zero epoch (`n_new_epochs` counts the epochs inserted since
`connect`, since nothing ever resets it while connected). -/
def conn_inv (cfg : Config) (st : State) : Prop :=
  ∀ c, st.conn = some c → buffer_wf cfg c.buffer ∧
    ∀ i, i < cfg.bufsize - st.n_new_epochs → c.buffer.getD i [] = zeroEpoch cfg

theorem conn_inv_connect (cfg : Config) : conn_inv cfg (connectState cfg) := by
  intro c hc
  have hc2 : ({ buffer := List.replicate cfg.bufsize (zeroEpoch cfg), last_ts := none }
      : ConnState) = c := by
    exact Option.some.inj hc
  subst hc2
  refine ⟨⟨by simp, ?_⟩, ?_⟩
  · intro ep hep
    have hez := List.eq_of_mem_replicate hep
    subst hez
    refine ⟨by simp [zeroEpoch], ?_⟩
    intro row hrow
    have hrz := List.eq_of_mem_replicate hrow
    subst hrz
    simp
  · intro i hi
    rw [List.getD_eq_getElem?_getD, List.getElem?_replicate, if_pos (by omega)]
    rfl

/-- Inversion of a successful non-empty acquisition body: the batch has
between 1 and `bufsize` epochs, each of the allocated shape. -/
theorem acquire_body_batch_shape (cfg : Config) (c : ConnState) (inp : AcqInput)
    (u : AcqUpdate) (h : acquire_body cfg c inp = Except.ok (some u)) :
    u.batch.length ≤ cfg.bufsize ∧ 1 ≤ u.batch.length ∧
    ∀ ep ∈ u.batch, ep.length = n_epoch_samples cfg ∧
      ∀ row ∈ ep, row.length = cfg.picks.length := by
  unfold acquire_body at h
  split at h
  · cases h
  · split at h
    · cases h
    · cases h
    · rename_i e0 rest
      split at h
      · split at h
        · cases h
        · rename_i batch hbatch
          split at h
          · rename_i hle
            split at h
            · cases h
            · cases h
              refine ⟨?_, ?_, ?_⟩
              · have hl := mapExcept_ok_length _ _ _ hbatch
                simpa [process_data, hl] using hle
              · have hl := mapExcept_ok_length _ _ _ hbatch
                simp [process_data, hl]
              · intro ep hep
                obtain ⟨a, ha⟩ := mapExcept_ok_mem _ _ _ hbatch ep hep
                exact extract_epoch_ok_shape cfg inp.data _ ep ha
          · cases h
      · cases h

/-- The invariant is preserved by every acquisition step. -/
theorem conn_inv_step (cfg : Config) (env : String) (st : State) (inp : AcqInput)
    (h : conn_inv cfg st) : conn_inv cfg (acquire_step cfg env st inp).state := by
  cases hconn : st.conn with
  | none =>
      intro c hc
      simp [acquire_step, hconn, reset_variables] at hc
  | some c0 =>
      cases hbody : acquire_body cfg c0 inp with
      | error e =>
          intro c hc
          simp [acquire_step, hconn, hbody, reset_variables] at hc
      | ok u =>
          cases u with
          | none =>
              have hstep : (acquire_step cfg env st inp).state = st := by
                simp [acquire_step, hconn, hbody]
              rw [hstep]
              exact h
          | some upd =>
              obtain ⟨hkle, hk1, hshape⟩ := acquire_body_batch_shape cfg c0 inp upd hbody
              obtain ⟨hwf, hzero⟩ := h c0 hconn
              have hstep : (acquire_step cfg env st inp).state
                  = { st with
                      conn := some { buffer := roll_overwrite c0.buffer upd.batch,
                                     last_ts := c0.last_ts },
                      last := some upd.last_val,
                      n_new_epochs := st.n_new_epochs + upd.batch.length } := by
                simp [acquire_step, hconn, hbody]
              rw [hstep]
              intro c hc
              have hc2 := Option.some.inj hc
              subst hc2
              have hkle2 : upd.batch.length ≤ c0.buffer.length := by
                rw [hwf.1]; exact hkle
              have hroll := roll_overwrite_eq_drop c0.buffer upd.batch hkle2
              refine ⟨⟨?_, ?_⟩, ?_⟩
              · rw [hroll]
                simp only [List.length_append, List.length_drop]
                have hb := hwf.1
                omega
              · intro ep hep
                rw [hroll] at hep
                rcases List.mem_append.mp hep with hep | hep
                · exact hwf.2 ep (List.mem_of_mem_drop hep)
                · exact hshape ep hep
              · intro i hi
                simp only at hi
                rw [hroll,
                    getD_append_left _ _ _ _ (by rw [List.length_drop, hwf.1]; omega),
                    getD_drop]
                exact hzero (upd.batch.length + i) (by omega)

/-- The invariant holds in every state reachable from `connect`. -/
theorem conn_inv_run (cfg : Config) (env : String) (inputs : List AcqInput) :
    conn_inv cfg (run_steps cfg env (connectState cfg) inputs) := by
  suffices hgen : ∀ (st : State), conn_inv cfg st →
      conn_inv cfg (run_steps cfg env st inputs) from
    hgen (connectState cfg) (conn_inv_connect cfg)
  induction inputs with
  | nil => intro st hst; exact hst
  | cons a t ih =>
      intro st hst
      exact ih (acquire_step cfg env st a).state (conn_inv_step cfg env st a hst)

/-- C7: in every connected state reachable from `connect` by any sequence of
acquisition steps, `get_data` succeeds and returns `bufsize` epochs of
`picks.length` selected channels and `n_epoch_samples` samples each —
regardless of how many real epochs have been collected — and every buffer
slot not yet filled by a real epoch still holds the zero epoch. -/
theorem get_data_shape_invariant (cfg : Config) (env : String) (inputs : List AcqInput)
    (gdPicks : List ℕ) (c : ConnState)
    (hc : (run_steps cfg env (connectState cfg) inputs).conn = some c) :
    (get_data (run_steps cfg env (connectState cfg) inputs) gdPicks
      = some (select_view c.buffer gdPicks,
          { run_steps cfg env (connectState cfg) inputs with new_new_epochs := some 0 })) ∧
    (select_view c.buffer gdPicks).length = cfg.bufsize ∧
    (∀ e ∈ select_view c.buffer gdPicks, e.length = gdPicks.length ∧
      ∀ r ∈ e, r.length = n_epoch_samples cfg) ∧
    (∀ i, i < cfg.bufsize - (run_steps cfg env (connectState cfg) inputs).n_new_epochs →
      c.buffer.getD i [] = zeroEpoch cfg) := by
  obtain ⟨hwf, hzero⟩ := conn_inv_run cfg env inputs c hc
  refine ⟨?_, ?_, ?_, hzero⟩
  · unfold get_data
    split
    · rename_i hnone
      rw [hc] at hnone
      cases hnone
    · rename_i c2 hsome
      rw [hc] at hsome
      have hcc := Option.some.inj hsome
      subst hcc
      rfl
  · simp [select_view, hwf.1]

  · intro e he
    simp only [select_view, List.mem_map] at he
    obtain ⟨ep, hep, rfl⟩ := he
    refine ⟨by simp, ?_⟩
    intro r hr
    simp only [List.mem_map] at hr
    obtain ⟨p, hp, rfl⟩ := hr
    simp [(hwf.2 ep hep).1]

/-- C7 witness: a freshly connected `cfg1` stream after one empty step —
`get_data` returns 2 epochs of 1 channel and 2 samples, all slots zero. -/
theorem get_data_shape_invariant_witness :
    ((run_steps cfg1 envOff (connectState cfg1) [inp8]).conn
        = some ⟨List.replicate 2 (zeroEpoch cfg1), none⟩) ∧
    (get_data (run_steps cfg1 envOff (connectState cfg1) [inp8]) [0]
      = some (select_view (List.replicate 2 (zeroEpoch cfg1)) [0],
          { run_steps cfg1 envOff (connectState cfg1) [inp8] with new_new_epochs := some 0 })) ∧
    (select_view (List.replicate 2 (zeroEpoch cfg1)) [0]).length = cfg1.bufsize ∧
    (∀ e ∈ select_view (List.replicate 2 (zeroEpoch cfg1)) [0], e.length = ([0] : List ℕ).length ∧
      ∀ r ∈ e, r.length = n_epoch_samples cfg1) ∧
    (∀ i, i < cfg1.bufsize - (run_steps cfg1 envOff (connectState cfg1) [inp8]).n_new_epochs →
      (List.replicate 2 (zeroEpoch cfg1)).getD i [] = zeroEpoch cfg1) := by
  have hc : (run_steps cfg1 envOff (connectState cfg1) [inp8]).conn
      = some ⟨List.replicate 2 (zeroEpoch cfg1), none⟩ := by decide
  have h := get_data_shape_invariant cfg1 envOff [inp8] [0]
    ⟨List.replicate 2 (zeroEpoch cfg1), none⟩ hc
  exact ⟨hc, h.1, h.2.1, h.2.2.1, h.2.2.2⟩

/-! ## Claim C10 -/

/-- C10 counterexample: the onset at index 10 survives pruning (allow-listed
code, `10 + 70 ≤ 100`, no watermark), yet its extraction start index
`10 + round(tmin * sfreq) = 10 - 20` is negative — the right-edge guard does
not keep the signed-shifted left edge in bounds. -/
theorem prune_left_edge_counterexample :
    prune_events [⟨10, 0, 1⟩] (some cfg10.event_id) (n_epoch_samples cfg10) ts10 none none
      = [⟨10, 0, 1⟩] ∧
    (10 : ℤ) + epoch_shift cfg10 < 0 := by
  exact ⟨by decide, by decide⟩

/-- C10 amended: every event surviving pruning satisfies the right-edge
guard `idx + epoch_sample_count ≤ available_samples`; when the signed shift
`round(tmin * sfreq)` is nonpositive this also bounds the right edge of the
shifted slice — but the left edge `idx + shift` need not be non-negative. -/
theorem prune_edges_amended (cfg : Config) (events : List Event)
    (event_id : Option (List ℤ)) (ts : List ℚ) (last_ts : Option ℚ)
    (ts_events : Option (List ℚ)) (e : Event)
    (he : e ∈ prune_events events event_id (n_epoch_samples cfg) ts last_ts ts_events)
    (hs : epoch_shift cfg ≤ 0) :
    e.idx + n_epoch_samples cfg ≤ ts.length ∧
    (e.idx : ℤ) + epoch_shift cfg + (n_epoch_samples cfg : ℤ) ≤ (ts.length : ℤ) := by
  have hedge : e.idx + n_epoch_samples cfg ≤ ts.length := by
    cases last_ts with
    | none =>
        simp only [prune_events] at he
        have h2 := (List.mem_filter.mp he).2
        simp only [decide_eq_true_eq] at h2
        exact h2
    | some w =>
        simp only [prune_events] at he
        have h2 := (List.mem_filter.mp (List.mem_of_mem_filter he)).2
        simp only [decide_eq_true_eq] at h2
        exact h2
  refine ⟨hedge, ?_⟩
  have := Nat.cast_le (α := ℤ) |>.mpr hedge
  push_cast at this ⊢
  omega

/-! ## Claim C4 -/

/-- The epoch the claim describes: `n_epoch_samples` contiguous samples of
the picked channels starting at sample index `s`. -/
def window_epoch (cfg : Config) (data : List (List ℤ)) (s : ℕ) : Epoch :=
  (List.range (n_epoch_samples cfg)).map
    (fun j => cfg.picks.map (fun p => (data.getD p []).getD (s + j) 0))

/-- Epochs after the trigger: `tmin = 0.5`, `tmax = 1.0` at 10 Hz — 5 samples
per epoch and a shift of `+5`. -/
def cfg4b : Config :=
  { bufsize := 2, tmin := mkRat 1 2, tmax := 1, sfreq := 10,
    event_id := [1], picks := [0], event_channel_picks := [1], source := EventSource.mainStim }

/-- A 10-sample data channel holding the value `j` at sample `j`. -/
def row4b : List ℤ := (List.range 10).map (fun j => (j : ℤ))

def ts4b : List ℚ := (List.range 10).map (fun k => (k : ℚ))

/-- C4 counterexample, two surviving onsets whose extracted epoch is not the
samples starting at `onset_index + round(tmin * sfreq)`:
(i) under `cfg4x` (epochs entirely before the trigger, shift `-20`,
10-sample epochs over a 15-sample window) the onset at index 5 survives
pruning, its claimed start index is `-15` — no such sample exists — and
extraction silently succeeds with samples 0 … 9 of the window (numpy resolves
the negative slice bounds `-15:-5` to `0:10`);
(ii) under `cfg4b` (shift `+5`, 5-sample epochs over a 10-sample window) the
onset at index 4 survives the right-edge guard (`4 + 5 ≤ 10`), its start
index is 9, the slice `9:14` is clipped to the single sample 9, and numpy
broadcasts it: the inserted epoch is sample 9 repeated 5 times, not 5
contiguous samples starting at 9. -/
theorem extraction_start_counterexample :
    (prune_events [⟨5, 0, 1⟩] (some cfg4x.event_id) (n_epoch_samples cfg4x) ts4x none none
        = [⟨5, 0, 1⟩] ∧
      (5 : ℤ) + epoch_shift cfg4x = -15 ∧
      extract_epoch cfg4x [row4x] ((5 : ℤ) + epoch_shift cfg4x)
        = Except.ok ((List.range 10).map (fun j => [(j : ℤ)]))) ∧
    (prune_events [⟨4, 0, 1⟩] (some cfg4b.event_id) (n_epoch_samples cfg4b) ts4b none none
        = [⟨4, 0, 1⟩] ∧
      (4 : ℤ) + epoch_shift cfg4b = 9 ∧
      extract_epoch cfg4b [row4b] ((4 : ℤ) + epoch_shift cfg4b)
        = Except.ok (List.replicate 5 [(9 : ℤ)])) := by
  refine ⟨⟨by decide, by decide, by rfl⟩, by decide, by decide, by rfl⟩

set_option maxRecDepth 400000 in
/-- C4 amended: for each onset surviving pruning whose shifted start index
`start = onset_index + round(tmin * sfreq)` is non-negative and whose slice
fits the window (`start + n_epoch_samples` within every picked channel),
extraction succeeds and the extracted epoch consists of exactly the
`n_epoch_samples` contiguous samples of the picked channels beginning at
`start`; and (Scenario A) with `tmin = -0.2` s at 100 Hz, a single rising
edge at sample 50 yields exactly one epoch that starts at sample 30. -/
theorem extraction_slice_amended :
    (∀ (cfg : Config) (data : List (List ℤ)) (start : ℤ),
        1 ≤ n_epoch_samples cfg → 0 ≤ start →
        (∀ p ∈ cfg.picks, start.toNat + n_epoch_samples cfg ≤ (data.getD p []).length) →
        extract_epoch cfg data start = Except.ok (window_epoch cfg data start.toNat))
    ∧ (acquire_step cfgA envOff (connectState cfgA) inpA).state
        = { conn := some ⟨[zeroEpoch cfgA, zeroEpoch cfgA, epochA], none⟩,
            n_new_epochs := 1, last := some 50, new_new_epochs := none } := by
  constructor
  · intro cfg data start _hn hstart hbound
    have hcast : start = ((start.toNat : ℕ) : ℤ) := (Int.toNat_of_nonneg hstart).symm
    have hlen : ∀ p ∈ cfg.picks,
        (pySlice (data.getD p []) start (start + (n_epoch_samples cfg : ℤ))).length
          = n_epoch_samples cfg := by
      intro p hp
      rw [hcast]
      exact pySlice_length_of_le _ _ _ (hbound p hp)
    have hall : ((cfg.picks.map
        (fun p => pySlice (data.getD p []) start (start + (n_epoch_samples cfg : ℤ)))).all
          (fun r => decide (r.length = n_epoch_samples cfg))) = true := by
      apply List.all_eq_true.mpr
      intro r hr
      simp only [List.mem_map] at hr
      obtain ⟨p, hp, rfl⟩ := hr
      exact decide_eq_true (hlen p hp)
    unfold extract_epoch
    rw [if_pos hall]
    congr 1
    unfold window_epoch transposeT
    apply List.map_congr_left
    intro j hj
    rw [List.map_map]
    apply List.map_congr_left
    intro p hp
    simp only [Function.comp]
    rw [hcast]
    exact pySlice_getD _ _ _ j (hbound p hp) (List.mem_range.mp hj)
  · decide

/-- C4 amended witness: a concrete in-bounds extraction (`start = 1`,
2-sample epochs from a 3-sample channel) succeeds and consists of the two
contiguous samples beginning at index 1. -/
theorem extraction_slice_amended_witness :
    (1 ≤ n_epoch_samples cfgw4 ∧ (0 : ℤ) ≤ 1 ∧
      (∀ p ∈ cfgw4.picks,
        (1 : ℤ).toNat + n_epoch_samples cfgw4 ≤ (([[5, 6, 7]] : List (List ℤ)).getD p []).length)) ∧
    extract_epoch cfgw4 [[5, 6, 7]] 1
      = Except.ok (window_epoch cfgw4 [[5, 6, 7]] (1 : ℤ).toNat) ∧
    window_epoch cfgw4 [[5, 6, 7]] (1 : ℤ).toNat = [[6], [7]] := by
  refine ⟨⟨by decide, by decide, by decide⟩, ?_, by decide⟩
  exact extraction_slice_amended.1 cfgw4 [[5, 6, 7]] 1 (by decide) (by decide) (by decide)

/-- C10 amended witness: the surviving onset at index 30 (with 70-sample
epochs over a 100-sample window and shift `-20`) satisfies both right-edge
bounds. -/
theorem prune_edges_amended_witness :
    ((⟨30, 0, 1⟩ : Event) ∈ prune_events [⟨30, 0, 1⟩] (some cfg10.event_id)
        (n_epoch_samples cfg10) ts10 none none ∧ epoch_shift cfg10 ≤ 0) ∧
    (30 : ℕ) + n_epoch_samples cfg10 ≤ ts10.length ∧
    ((30 : ℕ) : ℤ) + epoch_shift cfg10 + (n_epoch_samples cfg10 : ℤ) ≤ (ts10.length : ℤ) := by
  have hm : (⟨30, 0, 1⟩ : Event) ∈ prune_events [⟨30, 0, 1⟩] (some cfg10.event_id)
      (n_epoch_samples cfg10) ts10 none none := by decide
  have h := prune_edges_amended cfg10 [⟨30, 0, 1⟩] (some cfg10.event_id) ts10 none none
    ⟨30, 0, 1⟩ hm (by decide)
  exact ⟨⟨hm, by decide⟩, h.1, h.2⟩

end Epochs
